import Mathlib

/-!
Verification of the PSP721 unique-asset ledger kernel
(`contracts/token/psp721/src/traits.rs`) and the PSP1155 burnable
extension (`contracts/token/psp1155/src/extensions/burnable.rs`) of
openbrush-contracts.

Embedding conventions:
* The ink! `StorageHashMap`s are embedded as association lists; the
  `entry` API (`Vacant`/`Occupied`, `and_modify`, `or_insert`,
  `remove_entry`, `take`) is translated case by case at each call site.
* A Rust `panic!` / `assert!` / `Option::expect` inside a contract
  message aborts the call, and the runtime reverts the whole call as a
  unit (whole-call atomicity, spec section 5).  Every operation is
  therefore a function into `Except Abort Data` where `.error` carries
  the panic kind and discards the aborted call's writes; `observed`
  recovers the state visible after a call.
* `u32` counter arithmetic (`*v += 1`, `*v -= 1`) is embedded as
  checked arithmetic on `Nat`: a result out of `[0, 2^32)` aborts,
  matching the overflow-checked contract build.
* `AccountId` and `Id` are `[u8; 32]` values; they are embedded as
  `Nat`, with `0` playing the role of the all-zero `ZERO_ADDRESS`, so
  `AccountId::is_zero` becomes equality with `0`.
* `Self::env().caller()` is passed as an explicit `caller` argument.
-/

section AssocMap

variable {K V : Type} [DecidableEq K]

/-- Lookup in an association list: the first entry with the given key
(the embedding of `StorageHashMap::get`). -/
def mfind (l : List (K × V)) (k : K) : Option V :=
  (l.find? (fun p => decide (p.1 = k))).map Prod.snd

/-- Remove every entry with the given key (the embedding of
`StorageHashMap::take` and `Occupied::remove_entry`). -/
def merase (l : List (K × V)) (k : K) : List (K × V) :=
  l.filter (fun p => !decide (p.1 = k))

/-- Store a value under a key, leaving exactly one entry for that key
(the embedding of `StorageHashMap::insert` and of the
`and_modify`/`or_insert` entry updates, all of which leave the key
bound to a single value). -/
def minsert (l : List (K × V)) (k : K) (v : V) : List (K × V) :=
  (k, v) :: merase l k

/-- An association list with pairwise distinct keys (what a hash map
always satisfies). -/
def DistinctKeys (l : List (K × V)) : Prop :=
  (l.map Prod.fst).Nodup

end AssocMap

namespace PSP721

/-- ink! `AccountId` (`[u8; 32]`); `0` stands for `ZERO_ADDRESS`. -/
abbrev AccountId : Type := Nat

/-- `pub type Id = [u8; 32]` — an opaque token identifier. -/
abbrev Id : Type := Nat

/-- `PSP721Error` from traits.rs. -/
inductive Error : Type
  | CallFailed
  | NotOwner
  | NotApproved
  | TokenExists
  | TokenNotFound
  | NotAllowed
deriving DecidableEq

/-- How an embedded operation aborts: a `panic!`/`assert!` carrying a
`PSP721Error` name as its message, a bare `Option::expect` panic (the
source's `expect("PSP721Error with AccountId")`), or a checked
`u32` `*v -= 1` / `*v += 1` going out of range. -/
inductive Abort : Type
  | err (e : Error)
  | expectFailed
  | arithUnderflow
  | arithOverflow
deriving DecidableEq

/-- `PSP721Data`: the four storage hash maps. -/
structure Data : Type where
  token_owner : List (Id × AccountId)
  token_approvals : List (Id × AccountId)
  owned_tokens_count : List (AccountId × Nat)
  operator_approvals : List ((AccountId × AccountId) × Bool)
deriving DecidableEq

/-- The `Default` ledger: all four maps empty. -/
def emptyData : Data := ⟨[], [], [], []⟩

/-- `balance_of(owner)`: `owned_tokens_count.get(&owner).cloned().unwrap_or(0)`. -/
def balance_of (s : Data) (owner : AccountId) : Nat :=
  (mfind s.owned_tokens_count owner).getD 0

/-- `_owner_of(id)` / `owner_of(id)`: `token_owner.get(id).cloned()`. -/
def owner_of (s : Data) (id : Id) : Option AccountId :=
  mfind s.token_owner id

/-- `get_approved(id)`: `token_approvals.get(&id).cloned()`. -/
def get_approved (s : Data) (id : Id) : Option AccountId :=
  mfind s.token_approvals id

/-- `_approved_for_all(owner, operator)` / `is_approved_for_all`:
`operator_approvals.get(&(owner, operator)).unwrap_or(&false)`. -/
def approved_for_all (s : Data) (owner operator : AccountId) : Bool :=
  (mfind s.operator_approvals (owner, operator)).getD false

/-- `_approve_for_all(to, approved)` with explicit caller (the Rust
argument `to` is embedded as `toAcc`, since `to` is a reserved Lean
token; likewise in the other operations below).
`assert_ne!(to, caller)` aborts with `NotAllowed`; then the source
branches on `_approved_for_all(caller, to)`, but both the
`and_modify(..).or_insert(..)` branch and the `insert` branch bind
`(caller, to)` to `approved`. -/
def approve_for_all (caller toAcc : AccountId) (approved : Bool) (s : Data) :
    Except Abort Data :=
  if toAcc = caller then .error (.err .NotAllowed)
  else if approved_for_all s caller toAcc then
    .ok { s with operator_approvals := minsert s.operator_approvals (caller, toAcc) approved }
  else
    .ok { s with operator_approvals := minsert s.operator_approvals (caller, toAcc) approved }

/-- `_approve_for(to, id)` with explicit caller.  The authority test
`owner == Some(caller) || self._approved_for_all(owner.expect(..), caller)`
short-circuits, so the `expect` fires exactly when the first disjunct
fails and the token has no owner; a failed test panics `NotAllowed`,
then `assert!(!to.is_zero())` panics `NotAllowed`, then the approval
is stored. -/
def approve_for (caller toAcc : AccountId) (id : Id) (s : Data) :
    Except Abort Data :=
  let owner := owner_of s id
  if owner = some caller then
    if toAcc = 0 then .error (.err .NotAllowed)
    else .ok { s with token_approvals := minsert s.token_approvals id toAcc }
  else
    match owner with
    | none => .error .expectFailed
    | some o =>
      if approved_for_all s o caller then
        if toAcc = 0 then .error (.err .NotAllowed)
        else .ok { s with token_approvals := minsert s.token_approvals id toAcc }
      else .error (.err .NotAllowed)

/-- `_approved_or_owner(from, id)`.
`!from.unwrap_or_default().is_zero() && (from == owner || from ==
token_approvals.get(id) || _approved_for_all(owner.expect(..),
from.expect(..)))`, with `&&`/`||` short-circuiting: the two `expect`
calls are reached only when the first three tests fall through, and
abort when the dereferenced option is `None`. -/
def approved_or_owner (s : Data) (source : Option AccountId) (id : Id) :
    Except Abort Bool :=
  let owner := owner_of s id
  if source.getD 0 = 0 then .ok false
  else if source = owner then .ok true
  else if source = mfind s.token_approvals id then .ok true
  else
    match owner, source with
    | some o, some f => .ok (approved_for_all s o f)
    | _, _ => .error .expectFailed

/-- `_add_to(to, id)`: `assert!(!to.is_zero())` panics `NotAllowed`;
a vacant `token_owner` entry is filled with `to` while an occupied one
panics `TokenExists`; then `owned_tokens_count.entry(to)` is bumped
with `and_modify(|v| *v += 1).or_insert(1)` (checked `u32`). -/
def add_to (toAcc : AccountId) (id : Id) (s : Data) : Except Abort Data :=
  if toAcc = 0 then .error (.err .NotAllowed)
  else
    match mfind s.token_owner id with
    | some _ => .error (.err .TokenExists)
    | none =>
      let s1 : Data := { s with token_owner := (id, toAcc) :: s.token_owner }
      match mfind s1.owned_tokens_count toAcc with
      | some v =>
        if v + 1 < 2 ^ 32 then
          .ok { s1 with owned_tokens_count := minsert s1.owned_tokens_count toAcc (v + 1) }
        else .error .arithOverflow
      | none =>
        .ok { s1 with owned_tokens_count := minsert s1.owned_tokens_count toAcc 1 }

/-- `_remove_from(caller, id)` (transfer passes `from` for `caller`):
a vacant `token_owner` entry panics `TokenNotFound`;
`assert_eq!(occupied.get(), &caller)` panics `NotOwner`; then the
entry is removed and `owned_tokens_count.entry(caller)` is decremented
with `and_modify(|v| *v -= 1)` — note: no `or_insert`, so an absent
count entry is left absent (checked `u32` subtraction otherwise). -/
def remove_from (caller : AccountId) (id : Id) (s : Data) : Except Abort Data :=
  match mfind s.token_owner id with
  | none => .error (.err .TokenNotFound)
  | some w =>
    if w = caller then
      let s1 : Data := { s with token_owner := merase s.token_owner id }
      match mfind s1.owned_tokens_count caller with
      | some v =>
        if v = 0 then .error .arithUnderflow
        else .ok { s1 with owned_tokens_count := minsert s1.owned_tokens_count caller (v - 1) }
      | none => .ok s1
    else .error (.err .NotOwner)

/-- `_transfer_token_from(from, to, id)` with explicit caller:
assert the token exists (`TokenNotFound`), assert
`_approved_or_owner(Some(caller), id)` (`NotApproved`), then
`token_approvals.take(&id)`, `_remove_from(from, id)`, `_add_to(to, id)`. -/
def transfer_token_from (caller frm toAcc : AccountId) (id : Id) (s : Data) :
    Except Abort Data :=
  if (mfind s.token_owner id).isSome = false then .error (.err .TokenNotFound)
  else
    match approved_or_owner s (some caller) id with
    | .error a => .error a
    | .ok auth =>
      if auth = false then .error (.err .NotApproved)
      else
        let s1 : Data := { s with token_approvals := merase s.token_approvals id }
        match remove_from frm id s1 with
        | .error a => .error a
        | .ok s2 => add_to toAcc id s2

/-- `transfer_from(from, to, id)`: `_transfer_token_from` then the
(default no-op) transfer event. -/
def transfer_from (caller frm toAcc : AccountId) (id : Id) (s : Data) :
    Except Abort Data :=
  transfer_token_from caller frm toAcc id s

/-- `_mint_to(to, id)`: `_add_to` then the (default no-op) event. -/
def mint_to (toAcc : AccountId) (id : Id) (s : Data) : Except Abort Data :=
  add_to toAcc id s

/-- `_burn_from(from, id)`: `_remove_from` then the (default no-op)
event. -/
def burn_from (frm : AccountId) (id : Id) (s : Data) : Except Abort Data :=
  remove_from frm id s

/-- The variants of `ink_env::Error` the receiver-call dispatch can
see; only `NotCallable` is treated specially by the source. -/
inductive EnvError : Type
  | NotCallable
  | CalleeTrapped
  | CalleeReverted
  | Decode
  | Unknown
deriving DecidableEq

/-- `PSP721ReceiverError`. -/
inductive ReceiverError : Type
  | TransferRejected (msg : String)
deriving DecidableEq

/-- The outcome of firing `on_psp721_received` at the recipient: the
environment either delivers the callee's result or reports an
environment error. -/
abbrev CallOutcome : Type := Except EnvError (Except ReceiverError Unit)

/-- `_call_contract_transfer`: the source's nested match on the fired
call — `Ok(Ok(_))` proceeds, `Ok(Err(_))` panics `CallFailed`,
`Err(NotCallable)` proceeds, any other `Err` panics `CallFailed`. -/
def call_contract_transfer (outcome : CallOutcome) : Except Abort Unit :=
  match outcome with
  | .ok result =>
    match result with
    | .ok _ => .ok ()
    | .error _ => .error (.err .CallFailed)
  | .error e =>
    match e with
    | .NotCallable => .ok ()
    | _ => .error (.err .CallFailed)

/-- `safe_transfer_from(from, to, id, data)`: the ledger mutation
(`_transfer_token_from`), then the recipient notification
(`_call_contract_transfer`, whose external response is the `outcome`
argument), then the (default no-op) event. -/
def safe_transfer_from (caller frm toAcc : AccountId) (id : Id)
    (outcome : CallOutcome) (s : Data) : Except Abort Data :=
  match transfer_token_from caller frm toAcc id s with
  | .error a => .error a
  | .ok s1 =>
    match call_contract_transfer outcome with
    | .error a => .error a
    | .ok _ => .ok s1

/-- The ledger state observable after a call: the new state on
success, the starting state on abort (the runtime reverts an aborted
call as a unit — whole-call atomicity, spec section 5). -/
def observed (s : Data) (r : Except Abort Data) : Data :=
  match r with
  | .ok s1 => s1
  | .error _ => s

/-- The kernel operations (the alphabet for reachability). -/
inductive Op : Type
  | mint (toAcc : AccountId) (id : Id)
  | burn (frm : AccountId) (id : Id)
  | transfer (caller frm toAcc : AccountId) (id : Id)
  | approve (caller toAcc : AccountId) (id : Id)
  | approveAll (caller toAcc : AccountId) (b : Bool)

/-- One kernel operation, dispatched. -/
def step (op : Op) (s : Data) : Except Abort Data :=
  match op with
  | .mint toAcc id => mint_to toAcc id s
  | .burn frm id => burn_from frm id s
  | .transfer caller frm toAcc id => transfer_from caller frm toAcc id s
  | .approve caller toAcc id => approve_for caller toAcc id s
  | .approveAll caller toAcc b => approve_for_all caller toAcc b s

/-- States reachable from the default ledger by successful operations. -/
inductive Reachable : Data → Prop
  | init : Reachable emptyData
  | next {s s1 : Data} (op : Op) : Reachable s → step op s = .ok s1 → Reachable s1

/-- The number of `token_owner` entries recording `o` as owner. -/
def ownedCount (l : List (Id × AccountId)) (o : AccountId) : Nat :=
  (l.filter (fun p => decide (p.2 = o))).length

/-- The count/ownership consistency property of spec section 3: every
owner's stored count equals the number of ownership records naming it. -/
def CountInv (s : Data) : Prop :=
  ∀ o : AccountId, balance_of s o = ownedCount s.token_owner o

/-- The ledger invariant: `token_owner` has pairwise distinct keys
(each asset has at most one record) and the counts are consistent. -/
def Inv (s : Data) : Prop :=
  DistinctKeys s.token_owner ∧ CountInv s

/-- The transfer-hook shape of spec section 4.3, specialized to the
unique-asset kernel, where `items` is a single id. -/
abbrev Hook : Type := Option AccountId → Option AccountId → Id → Except Error Unit

/-- Modelled from the spec: the default `before_transfer` /
`after_transfer` behavior is success / no-op (spec section 4.3). -/
def noopHook : Hook := fun _ _ _ => .ok ()

/-- A hook that always vetoes, as spec section 4.3 allows a derived
contract to do (pause, allowlist). -/
def vetoHook : Hook := fun _ _ _ => .error .NotAllowed

/-- Modelled from the spec: spec sections 4.3 and 2 prescribe (for
both kernels) a mint that invokes `before_transfer(none, some to,
items)` before committing, a failure aborting the operation with no
state mutated, then the kernel mutation, then `after_transfer`.  The
psp721 kernel under src has no such extension points; this definition
follows the spec's words so the two can be compared. -/
def mint_to_hooked (beforeHook afterHook : Hook) (toAcc : AccountId) (id : Id)
    (s : Data) : Except Abort Data :=
  match beforeHook none (some toAcc) id with
  | .error e => .error (.err e)
  | .ok _ =>
    match mint_to toAcc id s with
    | .error a => .error a
    | .ok s1 =>
      match afterHook none (some toAcc) id with
      | .error e => .error (.err e)
      | .ok _ => .ok s1

/-- Modelled from the spec: the spec-prescribed hooked burn, as for
`mint_to_hooked` (hooks around the `_burn_from` mutation). -/
def burn_from_hooked (beforeHook afterHook : Hook) (frm : AccountId) (id : Id)
    (s : Data) : Except Abort Data :=
  match beforeHook (some frm) none id with
  | .error e => .error (.err e)
  | .ok _ =>
    match burn_from frm id s with
    | .error a => .error a
    | .ok s1 =>
      match afterHook (some frm) none id with
      | .error e => .error (.err e)
      | .ok _ => .ok s1

/-- Modelled from the spec: the spec-prescribed hooked transfer, as
for `mint_to_hooked` (hooks around the `_transfer_token_from`
mutation). -/
def transfer_hooked (beforeHook afterHook : Hook) (caller frm toAcc : AccountId)
    (id : Id) (s : Data) : Except Abort Data :=
  match beforeHook (some frm) (some toAcc) id with
  | .error e => .error (.err e)
  | .ok _ =>
    match transfer_token_from caller frm toAcc id s with
    | .error a => .error a
    | .ok s1 =>
      match afterHook (some frm) (some toAcc) id with
      | .error e => .error (.err e)
      | .ok _ => .ok s1

end PSP721

namespace PSP1155

/-- ink! `AccountId`, as in the PSP721 embedding. -/
abbrev AccountId : Type := Nat

/-- `Id = [u8; 32]` — a category identifier. -/
abbrev Id : Type := Nat

/-- `Balance` (`u128`). -/
abbrev Balance : Type := Nat

/-- The `PSP1155Error` variants the burnable extension and the
spec-modelled `_burn` can produce (`ApproveRequired` is the one named
by burnable.rs; `InsufficientBalance` is spec section 4.2's burn
failure). -/
inductive Error : Type
  | ApproveRequired
  | InsufficientBalance
deriving DecidableEq

/-- Modelled from the spec: the multi-category ledger state of spec
section 3 — per-(owner, category) balances, owner-wide operator
approvals, per-category total supply (the `PSP1155` trait's storage is
not under src). -/
structure Data : Type where
  balances : List ((AccountId × Id) × Balance)
  operator_approvals : List ((AccountId × AccountId) × Bool)
  supply : List (Id × Balance)
deriving DecidableEq

/-- The empty multi-category ledger. -/
def emptyData : Data := ⟨[], [], []⟩

/-- `balance_of(owner, category)`: absent entries read as `0` (spec
sections 4.2 and 9). -/
def balance_of (s : Data) (owner : AccountId) (id : Id) : Balance :=
  (mfind s.balances (owner, id)).getD 0

/-- Modelled from the spec: `is_approved_for_all(owner, operator)` —
the owner-wide operator approval of spec section 3, absent entries
reading as `false` (the `PSP1155` trait's implementation is not under
src; burnable.rs only calls it). -/
def is_approved_for_all (s : Data) (owner operator : AccountId) : Bool :=
  (mfind s.operator_approvals (owner, operator)).getD false

/-- Modelled from the spec: `PSP1155::_burn(from, id, amount)` is not
under src; per spec section 4.2 it fails with `InsufficientBalance`
when `amount` exceeds the holder's balance and otherwise decrements
the balance and the category's total supply. -/
def burnModel (frm : AccountId) (id : Id) (amount : Balance) (s : Data) :
    Except Error Data :=
  let b := balance_of s frm id
  if b < amount then .error .InsufficientBalance
  else
    .ok { s with
      balances := minsert s.balances (frm, id) (b - amount),
      supply := minsert s.supply id ((mfind s.supply id).getD 0 - amount) }

/-- Modelled from the spec: `PSP1155::_burn_batch(from, ids_amounts)`
is not under src; per spec section 4.2 it applies the items in order
and the first failing item aborts the rest. -/
def burnBatchModel (frm : AccountId) (items : List (Id × Balance)) (s : Data) :
    Except Error Data :=
  match items with
  | [] => .ok s
  | (id, amount) :: rest =>
    match burnModel frm id amount s with
    | .error e => .error e
    | .ok s1 => burnBatchModel frm rest s1

/-- `PSP1155Burnable::burn(id, amount)` (burnable.rs): burns from the
caller with no approval check. -/
def burn (caller : AccountId) (id : Id) (amount : Balance) (s : Data) :
    Except Error Data :=
  burnModel caller id amount s

/-- `PSP1155Burnable::burn_from(from, id, amount)` (burnable.rs):
`assert!(is_approved_for_all(from, caller))` panics `ApproveRequired`
before `_burn` runs, so a failed check aborts before any balance
mutation. -/
def burn_from (caller frm : AccountId) (id : Id) (amount : Balance) (s : Data) :
    Except Error Data :=
  if is_approved_for_all s frm caller then burnModel frm id amount s
  else .error .ApproveRequired

/-- `PSP1155Burnable::burn_batch(ids_amounts)` (burnable.rs): burns
from the caller with no approval check. -/
def burn_batch (caller : AccountId) (items : List (Id × Balance)) (s : Data) :
    Except Error Data :=
  burnBatchModel caller items s

/-- `PSP1155Burnable::burn_batch_from(from, ids_amounts)`
(burnable.rs): the same `ApproveRequired` assertion before
`_burn_batch`. -/
def burn_batch_from (caller frm : AccountId) (items : List (Id × Balance))
    (s : Data) : Except Error Data :=
  if is_approved_for_all s frm caller then burnBatchModel frm items s
  else .error .ApproveRequired

/-- Replace the operator-approval map, leaving balances and supply
untouched (used to state that `burn`/`burn_batch` consult no
approvals). -/
def setOps (s : Data) (a : List ((AccountId × AccountId) × Bool)) : Data :=
  { s with operator_approvals := a }

end PSP1155

section AssocMapTheorems

variable {K V : Type}

theorem mfind_cons [DecidableEq K] (p : K × V) (l : List (K × V)) (q : K) :
    mfind (p :: l) q = if p.1 = q then some p.2 else mfind l q := by
  by_cases h : p.1 = q <;> simp [mfind, List.find?_cons, h]

theorem merase_cons [DecidableEq K] (p : K × V) (l : List (K × V)) (k : K) :
    merase (p :: l) k = if p.1 = k then merase l k else p :: merase l k := by
  by_cases h : p.1 = k <;> simp [merase, List.filter_cons, h]

theorem mfind_merase_self [DecidableEq K] (l : List (K × V)) (k : K) :
    mfind (merase l k) k = none := by
  induction l with
  | nil => rfl
  | cons p l ih =>
    by_cases h : p.1 = k
    · rw [merase_cons, if_pos h]; exact ih
    · rw [merase_cons, if_neg h, mfind_cons, if_neg h]; exact ih

theorem mfind_merase_ne [DecidableEq K] (l : List (K × V)) {k q : K} (h : q ≠ k) :
    mfind (merase l k) q = mfind l q := by
  induction l with
  | nil => rfl
  | cons p l ih =>
    by_cases hp : p.1 = k
    · have hpq : ¬ p.1 = q := by rw [hp]; exact fun e => h e.symm
      rw [merase_cons, if_pos hp, mfind_cons, if_neg hpq]; exact ih
    · rw [merase_cons, if_neg hp, mfind_cons, mfind_cons]
      by_cases hq : p.1 = q
      · rw [if_pos hq, if_pos hq]
      · rw [if_neg hq, if_neg hq]; exact ih

theorem mfind_minsert_self [DecidableEq K] (l : List (K × V)) (k : K) (v : V) :
    mfind (minsert l k v) k = some v := by
  rw [minsert, mfind_cons, if_pos rfl]

theorem mfind_minsert_ne [DecidableEq K] (l : List (K × V)) {k q : K} (v : V) (h : q ≠ k) :
    mfind (minsert l k v) q = mfind l q := by
  rw [minsert, mfind_cons, if_neg (fun e => h e.symm), mfind_merase_ne l h]

theorem merase_merase [DecidableEq K] (l : List (K × V)) (k : K) :
    merase (merase l k) k = merase l k := by
  induction l with
  | nil => rfl
  | cons p l ih =>
    by_cases h : p.1 = k
    · rw [merase_cons, if_pos h]; exact ih
    · rw [merase_cons, if_neg h, merase_cons, if_neg h, ih]

theorem mfind_eq_none_iff [DecidableEq K] (l : List (K × V)) (k : K) :
    mfind l k = none ↔ ∀ p ∈ l, p.1 ≠ k := by
  simp [mfind, List.find?_eq_none]

theorem mem_of_mfind_eq_some [DecidableEq K] {l : List (K × V)} {k : K} {v : V}
    (h : mfind l k = some v) : (k, v) ∈ l := by
  unfold mfind at h
  obtain ⟨p, hp, hv⟩ := Option.map_eq_some'.mp h
  have hkey : p.1 = k := by
    have := List.find?_some hp
    simpa using this
  have hmem := List.mem_of_find?_eq_some hp
  obtain ⟨a, b⟩ := p
  simp only at hkey hv
  rw [hkey, hv] at hmem
  exact hmem

theorem merase_eq_self [DecidableEq K] {l : List (K × V)} {k : K} (h : ∀ p ∈ l, p.1 ≠ k) :
    merase l k = l := by
  apply List.filter_eq_self.mpr
  intro a ha
  simp [h a ha]

theorem distinctKeys_nil : DistinctKeys ([] : List (K × V)) := by
  simp [DistinctKeys]

theorem distinctKeys_tail {p : K × V} {l : List (K × V)}
    (h : DistinctKeys (p :: l)) : DistinctKeys l := by
  simp only [DistinctKeys, List.map_cons, List.nodup_cons] at h
  exact h.2

theorem distinctKeys_head_notin {p : K × V} {l : List (K × V)}
    (h : DistinctKeys (p :: l)) : ∀ q ∈ l, q.1 ≠ p.1 := by
  simp only [DistinctKeys, List.map_cons, List.nodup_cons] at h
  intro q hq e
  exact h.1 (e ▸ List.mem_map_of_mem Prod.fst hq)

theorem distinctKeys_merase [DecidableEq K] (l : List (K × V)) (k : K)
    (h : DistinctKeys l) : DistinctKeys (merase l k) := by
  have hsub : List.Sublist (merase l k) l := List.filter_sublist l
  exact List.Nodup.sublist (hsub.map Prod.fst) h

theorem distinctKeys_cons [DecidableEq K] {p : K × V} {l : List (K × V)}
    (hnot : mfind l p.1 = none) (h : DistinctKeys l) : DistinctKeys (p :: l) := by
  simp only [DistinctKeys, List.map_cons, List.nodup_cons]
  constructor
  · intro hmem
    obtain ⟨q, hq, he⟩ := List.mem_map.mp hmem
    exact (mfind_eq_none_iff l p.1).mp hnot q hq he
  · exact h

end AssocMapTheorems

namespace PSP721

theorem ownedCount_cons (p : Id × AccountId) (l : List (Id × AccountId))
    (o : AccountId) :
    ownedCount (p :: l) o = ownedCount l o + (if p.2 = o then 1 else 0) := by
  by_cases h : p.2 = o <;> simp [ownedCount, List.filter_cons, h]

theorem ownedCount_pos {l : List (Id × AccountId)} {k : Id} {o : AccountId}
    (h : (k, o) ∈ l) : 1 ≤ ownedCount l o := by
  have hmem : (k, o) ∈ l.filter (fun p => decide (p.2 = o)) :=
    List.mem_filter.mpr ⟨h, by simp⟩
  have hne := List.ne_nil_of_mem hmem
  have := List.length_pos.mpr hne
  simpa [ownedCount] using this

theorem ownedCount_merase {l : List (Id × AccountId)} {k : Id} {w o : AccountId}
    (hd : DistinctKeys l) (hf : mfind l k = some w) :
    ownedCount l o = ownedCount (merase l k) o + (if w = o then 1 else 0) := by
  induction l with
  | nil => simp [mfind] at hf
  | cons p l ih =>
    by_cases hp : p.1 = k
    · have hw : p.2 = w := by
        rw [mfind_cons, if_pos hp] at hf
        exact Option.some.inj hf
      have hnk : ∀ q ∈ l, q.1 ≠ k := by
        intro q hq e
        exact distinctKeys_head_notin hd q hq (e.trans hp.symm)
      rw [merase_cons, if_pos hp, merase_eq_self hnk, ownedCount_cons, hw]
    · have hf2 : mfind l k = some w := by
        rw [mfind_cons, if_neg hp] at hf
        exact hf
      rw [merase_cons, if_neg hp, ownedCount_cons, ownedCount_cons,
        ih (distinctKeys_tail hd) hf2]
      omega

theorem inv_emptyData : Inv emptyData := by
  refine ⟨distinctKeys_nil, fun o => ?_⟩
  rfl

theorem inv_set_approvals {s : Data} (h : Inv s) (t : List (Id × AccountId)) :
    Inv { s with token_approvals := t } :=
  ⟨h.1, fun o => h.2 o⟩

theorem inv_set_operators {s : Data} (h : Inv s)
    (t : List ((AccountId × AccountId) × Bool)) :
    Inv { s with operator_approvals := t } :=
  ⟨h.1, fun o => h.2 o⟩


theorem mfind_cons2 {K V : Type} [DecidableEq K] (k : K) (v : V)
    (l : List (K × V)) (q : K) :
    mfind ((k, v) :: l) q = if k = q then some v else mfind l q :=
  mfind_cons (k, v) l q

theorem ownedCount_cons2 (k : Id) (w : AccountId) (l : List (Id × AccountId))
    (o : AccountId) :
    ownedCount ((k, w) :: l) o = ownedCount l o + (if w = o then 1 else 0) :=
  ownedCount_cons (k, w) l o

theorem balance_mk (a b : List (Id × AccountId)) (c : List (AccountId × Nat))
    (d : List ((AccountId × AccountId) × Bool)) (o : AccountId) :
    balance_of ⟨a, b, c, d⟩ o = (mfind c o).getD 0 := rfl

theorem add_to_inv {toAcc : AccountId} {id : Id} {s s1 : Data}
    (h : Inv s) (hs : add_to toAcc id s = .ok s1) : Inv s1 := by
  simp only [add_to] at hs
  split at hs
  · exact Except.noConfusion hs
  split at hs
  · exact Except.noConfusion hs
  next hfind =>
  have hdk : DistinctKeys ((id, toAcc) :: s.token_owner) :=
    distinctKeys_cons hfind h.1
  split at hs
  next v hcnt =>
    split at hs
    case isFalse => exact Except.noConfusion hs
    next hov =>
    cases hs
    refine ⟨hdk, fun o => ?_⟩
    rw [balance_mk, ownedCount_cons2]
    by_cases ho : o = toAcc
    · subst ho
      have hv : ownedCount s.token_owner o = v := by
        have hb := h.2 o
        rw [balance_of, hcnt] at hb
        exact hb.symm
      rw [mfind_minsert_self, hv, if_pos rfl]
      rfl
    · rw [mfind_minsert_ne _ _ ho, if_neg (fun e => ho e.symm)]
      have hb := h.2 o
      rw [balance_of] at hb
      rw [hb]
      rfl
  next hcnt =>
    cases hs
    refine ⟨hdk, fun o => ?_⟩
    rw [balance_mk, ownedCount_cons2]
    by_cases ho : o = toAcc
    · subst ho
      have hv : ownedCount s.token_owner o = 0 := by
        have hb := h.2 o
        rw [balance_of, hcnt] at hb
        exact hb.symm
      rw [mfind_minsert_self, hv, if_pos rfl]
      rfl
    · rw [mfind_minsert_ne _ _ ho, if_neg (fun e => ho e.symm)]
      have hb := h.2 o
      rw [balance_of] at hb
      rw [hb]
      rfl

theorem remove_from_inv {frm : AccountId} {id : Id} {s s1 : Data}
    (h : Inv s) (hs : remove_from frm id s = .ok s1) : Inv s1 := by
  simp only [remove_from] at hs
  split at hs
  · exact Except.noConfusion hs
  next w hfind =>
  split at hs
  case isFalse => exact Except.noConfusion hs
  next hw =>
  subst hw
  have hmem : (id, w) ∈ s.token_owner := mem_of_mfind_eq_some hfind
  have hpos : 1 ≤ ownedCount s.token_owner w := ownedCount_pos hmem
  split at hs
  next v hcnt =>
    split at hs
    case isTrue => exact Except.noConfusion hs
    next hv0 =>
    cases hs
    have hdk := distinctKeys_merase s.token_owner id h.1
    refine ⟨hdk, fun o => ?_⟩
    show (mfind (minsert s.owned_tokens_count w (v - 1)) o).getD 0
        = ownedCount (merase s.token_owner id) o
    have hco : ownedCount s.token_owner o
        = ownedCount (merase s.token_owner id) o + (if w = o then 1 else 0) :=
      ownedCount_merase h.1 hfind
    by_cases ho : o = w
    · subst ho
      rw [mfind_minsert_self]
      rw [if_pos rfl] at hco
      have hv : v = ownedCount s.token_owner o := by
        have hb := h.2 o
        rw [balance_of, hcnt] at hb
        exact hb
      show v - 1 = ownedCount (merase s.token_owner id) o
      omega
    · rw [mfind_minsert_ne _ _ ho]
      rw [if_neg (fun e => ho e.symm)] at hco
      have hb := h.2 o
      rw [balance_of] at hb
      rw [hb]
      omega
  next hcnt =>
    exfalso
    have hb := h.2 w
    rw [balance_of, hcnt] at hb
    simp only [Option.getD_none] at hb
    omega

theorem approve_for_inv {caller toAcc : AccountId} {id : Id} {s s1 : Data}
    (h : Inv s) (hs : approve_for caller toAcc id s = .ok s1) : Inv s1 := by
  simp only [approve_for] at hs
  split at hs
  · split at hs
    · exact Except.noConfusion hs
    · cases hs
      exact inv_set_approvals h _
  · split at hs
    · exact Except.noConfusion hs
    · split at hs
      · split at hs
        · exact Except.noConfusion hs
        · cases hs
          exact inv_set_approvals h _
      · exact Except.noConfusion hs

theorem approve_for_all_inv {caller toAcc : AccountId} {b : Bool} {s s1 : Data}
    (h : Inv s) (hs : approve_for_all caller toAcc b s = .ok s1) : Inv s1 := by
  simp only [approve_for_all] at hs
  split at hs
  · exact Except.noConfusion hs
  split at hs <;> (cases hs; exact inv_set_operators h _)

theorem transfer_token_from_inv {caller frm toAcc : AccountId} {id : Id}
    {s s1 : Data} (h : Inv s)
    (hs : transfer_token_from caller frm toAcc id s = .ok s1) : Inv s1 := by
  simp only [transfer_token_from] at hs
  split at hs
  · exact Except.noConfusion hs
  split at hs
  · exact Except.noConfusion hs
  next auth hok =>
  split at hs
  · exact Except.noConfusion hs
  split at hs
  · exact Except.noConfusion hs
  next s2 hrm =>
  exact add_to_inv (remove_from_inv (inv_set_approvals h _) hrm) hs

theorem step_inv {op : Op} {s s1 : Data} (h : Inv s) (hs : step op s = .ok s1) :
    Inv s1 := by
  cases op with
  | mint toAcc id => exact add_to_inv h hs
  | burn frm id => exact remove_from_inv h hs
  | transfer caller frm toAcc id => exact transfer_token_from_inv h hs
  | approve caller toAcc id => exact approve_for_inv h hs
  | approveAll caller toAcc b => exact approve_for_all_inv h hs

theorem reachable_inv {s : Data} (h : Reachable s) : Inv s := by
  induction h with
  | init => exact inv_emptyData
  | next op hr hs ih => exact step_inv ih hs

theorem add_to_ne_underflow (toAcc : AccountId) (id : Id) (s : Data) :
    add_to toAcc id s ≠ .error .arithUnderflow := by
  intro hs
  simp only [add_to] at hs
  split at hs
  · simp at hs
  split at hs
  · simp at hs
  split at hs
  · split at hs <;> simp at hs
  · simp at hs

theorem remove_from_ne_underflow {s : Data} (h : Inv s) (frm : AccountId)
    (id : Id) : remove_from frm id s ≠ .error .arithUnderflow := by
  intro hs
  simp only [remove_from] at hs
  split at hs
  · simp at hs
  next w hfind =>
  split at hs
  case isFalse => simp at hs
  next hw =>
  subst hw
  have hpos : 1 ≤ ownedCount s.token_owner w :=
    ownedCount_pos (mem_of_mfind_eq_some hfind)
  split at hs
  next v hcnt =>
    split at hs
    next hv0 =>
      have hb := h.2 w
      rw [balance_of, hcnt] at hb
      simp only [Option.getD_some] at hb
      omega
    next hv0 => simp at hs
  next hcnt => simp at hs

theorem approved_or_owner_ne_underflow (s : Data) (src : Option AccountId)
    (id : Id) : approved_or_owner s src id ≠ .error .arithUnderflow := by
  intro hs
  simp only [approved_or_owner] at hs
  split at hs
  · simp at hs
  split at hs
  · simp at hs
  split at hs
  · simp at hs
  split at hs <;> simp at hs

theorem approve_for_ne_underflow (caller toAcc : AccountId) (id : Id)
    (s : Data) : approve_for caller toAcc id s ≠ .error .arithUnderflow := by
  intro hs
  simp only [approve_for] at hs
  split at hs
  · split at hs <;> simp at hs
  · split at hs
    · simp at hs
    · split at hs
      · split at hs <;> simp at hs
      · simp at hs

theorem approve_for_all_ne_underflow (caller toAcc : AccountId) (b : Bool)
    (s : Data) : approve_for_all caller toAcc b s ≠ .error .arithUnderflow := by
  intro hs
  simp only [approve_for_all] at hs
  split at hs
  · simp at hs
  split at hs <;> simp at hs

theorem transfer_ne_underflow {s : Data} (h : Inv s)
    (caller frm toAcc : AccountId) (id : Id) :
    transfer_from caller frm toAcc id s ≠ .error .arithUnderflow := by
  intro hs
  simp only [transfer_from, transfer_token_from] at hs
  split at hs
  · simp at hs
  split at hs
  next a ha =>
    injection hs with h2
    rw [h2] at ha
    exact approved_or_owner_ne_underflow s (some caller) id ha
  next auth hok =>
  split at hs
  · simp at hs
  split at hs
  next a ha =>
    injection hs with h2
    rw [h2] at ha
    exact remove_from_ne_underflow (inv_set_approvals h _) frm id ha
  next s2 hrm =>
    exact add_to_ne_underflow toAcc id s2 hs

theorem step_ne_underflow {s : Data} (h : Inv s) (op : Op) :
    step op s ≠ .error .arithUnderflow := by
  cases op with
  | mint toAcc id => exact add_to_ne_underflow toAcc id s
  | burn frm id => exact remove_from_ne_underflow h frm id
  | transfer caller frm toAcc id => exact transfer_ne_underflow h caller frm toAcc id
  | approve caller toAcc id => exact approve_for_ne_underflow caller toAcc id s
  | approveAll caller toAcc b => exact approve_for_all_ne_underflow caller toAcc b s

theorem add_to_approvals {toAcc : AccountId} {id : Id} {s s1 : Data}
    (h : add_to toAcc id s = .ok s1) : s1.token_approvals = s.token_approvals := by
  simp only [add_to] at h
  split at h
  · exact Except.noConfusion h
  split at h
  · exact Except.noConfusion h
  split at h
  · split at h
    · cases h
      rfl
    · exact Except.noConfusion h
  · cases h
    rfl

theorem remove_from_approvals {frm : AccountId} {id : Id} {s s1 : Data}
    (h : remove_from frm id s = .ok s1) :
    s1.token_approvals = s.token_approvals := by
  simp only [remove_from] at h
  split at h
  · exact Except.noConfusion h
  split at h
  case isFalse => exact Except.noConfusion h
  split at h
  · split at h
    · exact Except.noConfusion h
    · cases h
      rfl
  · cases h
    rfl

theorem remove_from_eq_ok {frm : AccountId} {id : Id} {s : Data} {v : Nat}
    (hfind : mfind s.token_owner id = some frm)
    (hcnt : mfind s.owned_tokens_count frm = some v) (hv : v ≠ 0) :
    remove_from frm id s = .ok ⟨merase s.token_owner id, s.token_approvals,
      minsert s.owned_tokens_count frm (v - 1), s.operator_approvals⟩ := by
  simp [remove_from, hfind, hcnt, hv]

theorem add_to_eq_ok {toAcc : AccountId} {id : Id} {s : Data}
    (h0 : toAcc ≠ 0) (hfind : mfind s.token_owner id = none)
    (hcap : balance_of s toAcc + 1 < 2 ^ 32) :
    add_to toAcc id s = .ok ⟨(id, toAcc) :: s.token_owner, s.token_approvals,
      minsert s.owned_tokens_count toAcc (balance_of s toAcc + 1),
      s.operator_approvals⟩ := by
  cases hcnt : mfind s.owned_tokens_count toAcc with
  | some v =>
    have hb : balance_of s toAcc = v := by
      rw [balance_of, hcnt]
      rfl
    rw [hb] at hcap ⊢
    simp [add_to, h0, hfind, hcnt, hcap]
    omega
  | none =>
    have hb : balance_of s toAcc = 0 := by
      rw [balance_of, hcnt]
      rfl
    rw [hb] at hcap ⊢
    simp [add_to, h0, hfind, hcnt]

theorem transfer_token_from_eq_ok {caller frm toAcc : AccountId} {id : Id}
    {s : Data} {n : Nat}
    (hown : mfind s.token_owner id = some frm)
    (hauth : approved_or_owner s (some caller) id = .ok true)
    (hne : toAcc ≠ frm) (h0 : toAcc ≠ 0)
    (hcnt : mfind s.owned_tokens_count frm = some n) (hn : n ≠ 0)
    (hcap : balance_of s toAcc + 1 < 2 ^ 32) :
    transfer_token_from caller frm toAcc id s
      = .ok ⟨(id, toAcc) :: merase s.token_owner id,
          merase s.token_approvals id,
          minsert (minsert s.owned_tokens_count frm (n - 1)) toAcc
            (balance_of s toAcc + 1),
          s.operator_approvals⟩ := by
  have h1 : remove_from frm id
      (⟨s.token_owner, merase s.token_approvals id, s.owned_tokens_count,
        s.operator_approvals⟩ : Data)
      = .ok ⟨merase s.token_owner id, merase s.token_approvals id,
          minsert s.owned_tokens_count frm (n - 1), s.operator_approvals⟩ :=
    remove_from_eq_ok hown hcnt hn
  have hbal : balance_of (⟨merase s.token_owner id, merase s.token_approvals id,
      minsert s.owned_tokens_count frm (n - 1), s.operator_approvals⟩ : Data) toAcc
      = balance_of s toAcc := by
    rw [balance_mk, balance_of, mfind_minsert_ne _ _ hne]
  have h2 := add_to_eq_ok h0 (mfind_merase_self s.token_owner id)
    (hbal.symm ▸ hcap)
  rw [hbal] at h2
  simp [transfer_token_from, hown, hauth, h1, h2]

theorem approved_or_owner_of_auth {s : Data} {caller frm : AccountId} {id : Id}
    (hc0 : caller ≠ 0) (hown : owner_of s id = some frm)
    (hd : caller = frm ∨ get_approved s id = some caller
        ∨ approved_for_all s frm caller = true) :
    approved_or_owner s (some caller) id = .ok true := by
  simp only [approved_or_owner, Option.getD_some]
  rw [if_neg hc0]
  by_cases h1 : (some caller : Option AccountId) = owner_of s id
  · rw [if_pos h1]
  · rw [if_neg h1]
    by_cases h2 : (some caller : Option AccountId) = mfind s.token_approvals id
    · rw [if_pos h2]
    · rw [if_neg h2]
      rcases hd with hc | hc | hc
      · exact absurd (by rw [hown, hc]) h1
      · exact absurd (by rw [get_approved] at hc; rw [hc]) h2
      · simp [hown, hc]

/-- Claim C1: from a ledger state in which `id` is owned by `from`
(embedded as `frm`) with a consistent positive count entry, the caller
authorized as owner, approved spender, or approved operator (and
non-zero, as the kernel requires), `from ≠ to`, `to` non-zero and no
count overflow at `to`, the transfer succeeds and: clears the
single-asset approval for `id`, decrements `from`'s owned-token count
by 1, replaces the ownership record of `id` (removing `id → from`,
inserting `id → to`), and increments `to`'s owned-token count by 1. -/
theorem C1_transfer_effects (caller frm toAcc : AccountId) (id : Id) (s : Data)
    (n : Nat)
    (hown : owner_of s id = some frm)
    (hc0 : caller ≠ 0)
    (hd : caller = frm ∨ get_approved s id = some caller
        ∨ approved_for_all s frm caller = true)
    (hne : frm ≠ toAcc) (h0 : toAcc ≠ 0)
    (hcnt : mfind s.owned_tokens_count frm = some n) (hn : n ≠ 0)
    (hcap : balance_of s toAcc + 1 < 2 ^ 32) :
    (transfer_from caller frm toAcc id s).isOk = true
    ∧ get_approved (observed s (transfer_from caller frm toAcc id s)) id = none
    ∧ owner_of (observed s (transfer_from caller frm toAcc id s)) id = some toAcc
    ∧ balance_of (observed s (transfer_from caller frm toAcc id s)) frm
        = balance_of s frm - 1
    ∧ balance_of (observed s (transfer_from caller frm toAcc id s)) toAcc
        = balance_of s toAcc + 1 := by
  have hauth := approved_or_owner_of_auth hc0 hown hd
  have ht := transfer_token_from_eq_ok hown hauth (fun e => hne e.symm) h0 hcnt hn hcap
  simp only [transfer_from, ht, observed]
  refine ⟨rfl, ?_, ?_, ?_, ?_⟩
  · exact mfind_merase_self s.token_approvals id
  · show mfind ((id, toAcc) :: merase s.token_owner id) id = some toAcc
    rw [mfind_cons2, if_pos rfl]
  · show (mfind (minsert (minsert s.owned_tokens_count frm (n - 1)) toAcc
        (balance_of s toAcc + 1)) frm).getD 0 = balance_of s frm - 1
    rw [mfind_minsert_ne _ _ hne, mfind_minsert_self, balance_of, hcnt]
    rfl
  · show (mfind (minsert (minsert s.owned_tokens_count frm (n - 1)) toAcc
        (balance_of s toAcc + 1)) toAcc).getD 0 = balance_of s toAcc + 1
    rw [mfind_minsert_self]
    rfl

/-- Witness for C1: a concrete transfer of token 7 from owner 2 to 3
with a stale approval for 9, exercising every hypothesis. -/
theorem C1_transfer_effects_witness :
    (transfer_from 2 2 3 7 ⟨[(7, 2)], [(7, 9)], [(2, 1)], []⟩).isOk = true
    ∧ get_approved (observed ⟨[(7, 2)], [(7, 9)], [(2, 1)], []⟩
        (transfer_from 2 2 3 7 ⟨[(7, 2)], [(7, 9)], [(2, 1)], []⟩)) 7 = none
    ∧ owner_of (observed ⟨[(7, 2)], [(7, 9)], [(2, 1)], []⟩
        (transfer_from 2 2 3 7 ⟨[(7, 2)], [(7, 9)], [(2, 1)], []⟩)) 7 = some 3
    ∧ balance_of (observed ⟨[(7, 2)], [(7, 9)], [(2, 1)], []⟩
        (transfer_from 2 2 3 7 ⟨[(7, 2)], [(7, 9)], [(2, 1)], []⟩)) 2
        = balance_of ⟨[(7, 2)], [(7, 9)], [(2, 1)], []⟩ 2 - 1
    ∧ balance_of (observed ⟨[(7, 2)], [(7, 9)], [(2, 1)], []⟩
        (transfer_from 2 2 3 7 ⟨[(7, 2)], [(7, 9)], [(2, 1)], []⟩)) 3
        = balance_of ⟨[(7, 2)], [(7, 9)], [(2, 1)], []⟩ 3 + 1 :=
  C1_transfer_effects 2 2 3 7 ⟨[(7, 2)], [(7, 9)], [(2, 1)], []⟩ 1 rfl
    (by decide) (Or.inl rfl) (by decide) (by decide) rfl (by decide) (by decide)

/-- Claim C3: a transfer that fails with TokenNotFound, NotApproved,
NotOwner or NotAllowed aborts the call, and whole-call atomicity (spec
section 5) makes the observable ledger — ownership map, single-asset
approvals, owned-token counts, operator approvals — equal the starting
state. -/
theorem C3_failed_transfer_unchanged (caller frm toAcc : AccountId) (id : Id)
    (s : Data) (e : Error)
    (he : transfer_from caller frm toAcc id s = .error (.err e))
    (_hk : e = .TokenNotFound ∨ e = .NotApproved ∨ e = .NotOwner
        ∨ e = .NotAllowed) :
    (observed s (transfer_from caller frm toAcc id s)).token_owner = s.token_owner
    ∧ (observed s (transfer_from caller frm toAcc id s)).token_approvals
        = s.token_approvals
    ∧ (observed s (transfer_from caller frm toAcc id s)).owned_tokens_count
        = s.owned_tokens_count
    ∧ (observed s (transfer_from caller frm toAcc id s)).operator_approvals
        = s.operator_approvals := by
  rw [he]
  exact ⟨rfl, rfl, rfl, rfl⟩

/-- Witness for C3: the transfer of a nonexistent token fails with
TokenNotFound and the observable state is the starting (empty) one. -/
theorem C3_failed_transfer_unchanged_witness :
    (observed emptyData (transfer_from 1 2 3 7 emptyData)).token_owner
        = emptyData.token_owner
    ∧ (observed emptyData (transfer_from 1 2 3 7 emptyData)).token_approvals
        = emptyData.token_approvals
    ∧ (observed emptyData (transfer_from 1 2 3 7 emptyData)).owned_tokens_count
        = emptyData.owned_tokens_count
    ∧ (observed emptyData (transfer_from 1 2 3 7 emptyData)).operator_approvals
        = emptyData.operator_approvals :=
  C3_failed_transfer_unchanged 1 2 3 7 emptyData .TokenNotFound rfl (Or.inl rfl)

/-- Claim C6 (code bug): the authority check `_approved_or_owner` is
not guarded before dereferencing the owner — invoked for an id with no
recorded owner, no matching single-asset approval and a non-zero
caller, it reaches `owner.expect("PSP721Error with AccountId")` and
panics, contrary to the spec's guard requirement; here evaluated at
the concrete failing input (empty ledger, caller 1, id 0). -/
theorem C6_unguarded_owner_dereference :
    approved_or_owner emptyData (some 1) 0 = .error .expectFailed := rfl

/-- Claim C7: in every state reachable by sequences of mint, burn,
transfer (and approval) operations, each owner's stored owned-token
count equals the number of ownership records naming that owner, and no
operation can make a count underflow (the checked decrement in
`_remove_from` never aborts from a reachable state). -/
theorem C7_count_invariant (s : Data) (h : Reachable s) :
    (∀ o : AccountId, balance_of s o = ownedCount s.token_owner o)
    ∧ ∀ op : Op, step op s ≠ .error .arithUnderflow := by
  have hi := reachable_inv h
  exact ⟨hi.2, fun op => step_ne_underflow hi op⟩

/-- Witness for C7 at the concrete reachable state after minting token
5 to owner 1, checking the count of owner 1 and a burn step. -/
theorem C7_count_invariant_witness :
    balance_of ⟨[(5, 1)], [], [(1, 1)], []⟩ 1 = ownedCount [(5, 1)] 1
    ∧ step (.burn 1 5) ⟨[(5, 1)], [], [(1, 1)], []⟩
        ≠ .error .arithUnderflow :=
  have hr : Reachable ⟨[(5, 1)], [], [(1, 1)], []⟩ :=
    Reachable.next (.mint 1 5) Reachable.init rfl
  ⟨(C7_count_invariant _ hr).1 1, (C7_count_invariant _ hr).2 (.burn 1 5)⟩

/-- Claim C8: after every successful unique-asset transfer of `id`,
`get_approved id` is `None`, whatever the prior approval was. -/
theorem C8_approval_cleared {caller frm toAcc : AccountId} {id : Id}
    {s s1 : Data} (h : transfer_from caller frm toAcc id s = .ok s1) :
    get_approved s1 id = none := by
  simp only [transfer_from, transfer_token_from] at h
  split at h
  · exact Except.noConfusion h
  split at h
  · exact Except.noConfusion h
  next auth hok =>
  split at h
  · exact Except.noConfusion h
  split at h
  · exact Except.noConfusion h
  next s2 hrm =>
  have h1 := add_to_approvals h
  have h2 := remove_from_approvals hrm
  rw [get_approved, h1, h2]
  exact mfind_merase_self s.token_approvals id

/-- Witness for C8: the concrete transfer of C1's witness ends with no
approval for token 7 (it had been approved to 9 before). -/
theorem C8_approval_cleared_witness :
    get_approved ⟨[(7, 3)], [], [(3, 1), (2, 0)], []⟩ 7 = none :=
  @C8_approval_cleared 2 2 3 7 ⟨[(7, 2)], [(7, 9)], [(2, 1)], []⟩
    ⟨[(7, 3)], [], [(3, 1), (2, 0)], []⟩ rfl

/-- Claim C2 counterexample: the psp721 kernel has no before_transfer
veto point — at a concrete input the spec-prescribed hooked kernel
with a vetoing before-hook aborts with no state mutated, while the
source kernel `_mint_to` commits the very same mutation regardless of
any hook, so the claim is false of the code. -/
theorem C2_before_hook_not_invoked :
    mint_to_hooked vetoHook noopHook 1 5 emptyData = .error (.err .NotAllowed)
    ∧ mint_to 1 5 emptyData = .ok ⟨[(5, 1)], [], [(1, 1)], []⟩
    ∧ (⟨[(5, 1)], [], [(1, 1)], []⟩ : Data) ≠ emptyData := by
  refine ⟨rfl, rfl, ?_⟩
  decide

/-- Claim C2 (amended): the psp721 unique-asset kernel invokes no
transfer-hook extension points — mint, burn and transfer commit their
mutations directly, and they coincide with the spec's hooked kernel
exactly when both hooks are the default no-op success. -/
theorem C2_no_hooks_default_agreement :
    ∀ (caller frm toAcc : AccountId) (id : Id) (s : Data),
      mint_to_hooked noopHook noopHook toAcc id s = mint_to toAcc id s
      ∧ burn_from_hooked noopHook noopHook frm id s = burn_from frm id s
      ∧ transfer_hooked noopHook noopHook caller frm toAcc id s
          = transfer_token_from caller frm toAcc id s := by
  intro caller frm toAcc id s
  refine ⟨?_, ?_, ?_⟩
  · cases h : mint_to toAcc id s <;> simp [mint_to_hooked, noopHook, h]
  · cases h : burn_from frm id s <;> simp [burn_from_hooked, noopHook, h]
  · cases h : transfer_token_from caller frm toAcc id s <;>
      simp [transfer_hooked, noopHook, h]

/-- Claim C4: the recipient-notification dispatch has exactly three
outcomes — the recipient's success is success, a not-callable
recipient is treated as success, and an explicit rejection or any
other environment error fails with CallFailed, making the whole
safe_transfer fail with CallFailed after a successful mutation. -/
theorem C4_notification_outcomes :
    (∀ u : Unit, call_contract_transfer (.ok (.ok u)) = .ok ())
    ∧ call_contract_transfer (.error .NotCallable) = .ok ()
    ∧ (∀ r : ReceiverError,
        call_contract_transfer (.ok (.error r)) = .error (.err .CallFailed))
    ∧ (∀ e : EnvError, e ≠ .NotCallable →
        call_contract_transfer (.error e) = .error (.err .CallFailed))
    ∧ (∀ (caller frm toAcc : AccountId) (id : Id) (outcome : CallOutcome)
        (s s1 : Data),
        transfer_token_from caller frm toAcc id s = .ok s1 →
        call_contract_transfer outcome = .error (.err .CallFailed) →
        safe_transfer_from caller frm toAcc id outcome s
          = .error (.err .CallFailed)) := by
  refine ⟨fun u => rfl, rfl, fun r => rfl, fun e he => ?_, ?_⟩
  · cases e
    case NotCallable => exact absurd rfl he
    all_goals rfl
  · intro caller frm toAcc id outcome s s1 ht hc
    simp [safe_transfer_from, ht, hc]

/-- Witness for C4: each of the three outcomes at concrete inputs, and
the whole safe_transfer failing on a rejecting recipient after a
successful mutation. -/
theorem C4_notification_outcomes_witness :
    call_contract_transfer (.ok (.ok ())) = .ok ()
    ∧ call_contract_transfer (.error .NotCallable) = .ok ()
    ∧ call_contract_transfer (.ok (.error (.TransferRejected "no")))
        = .error (.err .CallFailed)
    ∧ call_contract_transfer (.error .CalleeTrapped) = .error (.err .CallFailed)
    ∧ safe_transfer_from 2 2 3 7 (.ok (.error (.TransferRejected "no")))
        ⟨[(7, 2)], [], [(2, 1)], []⟩ = .error (.err .CallFailed) :=
  ⟨C4_notification_outcomes.1 (), C4_notification_outcomes.2.1,
   C4_notification_outcomes.2.2.1 (.TransferRejected "no"),
   C4_notification_outcomes.2.2.2.1 .CalleeTrapped (by decide),
   C4_notification_outcomes.2.2.2.2 2 2 3 7
     (.ok (.error (.TransferRejected "no"))) ⟨[(7, 2)], [], [(2, 1)], []⟩
     ⟨[(7, 3)], [], [(3, 1), (2, 0)], []⟩ rfl rfl⟩

/-- Claim C5 counterexample: `approve` does not reject self-approval —
with account 1 the owner of token 7, `approve(caller 1, spender 1,
id 7)` succeeds and records the self-approval instead of failing with
NotAllowed as the claim states. -/
theorem C5_self_approval_accepted :
    approve_for 1 1 7 ⟨[(7, 1)], [], [(1, 1)], []⟩
      = .ok ⟨[(7, 1)], [(7, 1)], [(1, 1)], []⟩ := rfl

/-- Claim C5 (amended): for an id with a recorded owner, approve
succeeds only if the caller is the current owner or an approved
operator of the owner, and fails with NotAllowed whenever the spender
is the zero owner; a spender equal to the caller is not rejected. -/
theorem C5_approve_authority (caller toAcc : AccountId) (id : Id) (s : Data)
    (o : AccountId) (hown : owner_of s id = some o) :
    (∀ s1, approve_for caller toAcc id s = .ok s1 →
        (o = caller ∨ approved_for_all s o caller = true) ∧ toAcc ≠ 0)
    ∧ (toAcc = 0 → approve_for caller toAcc id s = .error (.err .NotAllowed)) := by
  constructor
  · intro s1 hs
    simp only [approve_for] at hs
    split at hs
    next hoc =>
      split at hs
      · exact Except.noConfusion hs
      next ht0 =>
        refine ⟨Or.inl ?_, ht0⟩
        rw [hown] at hoc
        exact Option.some.inj hoc
    next hoc =>
      split at hs
      · exact Except.noConfusion hs
      next o2 hsome =>
        split at hs
        next happ =>
          split at hs
          · exact Except.noConfusion hs
          next ht0 =>
            have ho2 : o2 = o := by
              rw [hown] at hsome
              exact (Option.some.inj hsome).symm
            exact ⟨Or.inr (ho2 ▸ happ), ht0⟩
        · exact Except.noConfusion hs
  · intro h0
    simp only [approve_for, hown]
    by_cases hoc : o = caller
    · simp [hoc, h0]
    · simp [hoc, h0]

/-- Witness for C5 (amended): the authority conclusion at a concrete
successful approval, and the NotAllowed failure for a zero spender. -/
theorem C5_approve_authority_witness :
    (((2 : AccountId) = 2
        ∨ approved_for_all ⟨[(7, 2)], [], [(2, 1)], []⟩ 2 2 = true)
      ∧ (3 : AccountId) ≠ 0)
    ∧ approve_for 1 0 7 ⟨[(7, 1)], [], [(1, 1)], []⟩
        = .error (.err .NotAllowed) :=
  ⟨(C5_approve_authority 2 3 7 ⟨[(7, 2)], [], [(2, 1)], []⟩ 2 rfl).1
      ⟨[(7, 2)], [(7, 3)], [(2, 1)], []⟩ rfl,
   (C5_approve_authority 1 0 7 ⟨[(7, 1)], [], [(1, 1)], []⟩ 1 rfl).2 rfl⟩

/-- Claim C9: `set_approval_for_all` fails with NotAllowed when the
operator equals the caller; otherwise it succeeds and running the same
call again succeeds with the same resulting state (idempotence). -/
theorem C9_operator_approval (caller toAcc : AccountId) (b : Bool) (s : Data) :
    (toAcc = caller → approve_for_all caller toAcc b s = .error (.err .NotAllowed))
    ∧ (toAcc ≠ caller →
        (approve_for_all caller toAcc b s).isOk = true
        ∧ Except.bind (approve_for_all caller toAcc b s)
            (approve_for_all caller toAcc b)
          = approve_for_all caller toAcc b s) := by
  constructor
  · intro h
    simp [approve_for_all, h]
  · intro h
    have hres : approve_for_all caller toAcc b s
        = .ok ⟨s.token_owner, s.token_approvals, s.owned_tokens_count,
            minsert s.operator_approvals (caller, toAcc) b⟩ := by
      simp [approve_for_all, h, ite_self]
    refine ⟨by rw [hres]; rfl, ?_⟩
    rw [hres]
    show approve_for_all caller toAcc b
        ⟨s.token_owner, s.token_approvals, s.owned_tokens_count,
          minsert s.operator_approvals (caller, toAcc) b⟩
      = .ok ⟨s.token_owner, s.token_approvals, s.owned_tokens_count,
          minsert s.operator_approvals (caller, toAcc) b⟩
    simp [approve_for_all, h, ite_self, minsert, merase_cons, merase_merase]

/-- Witness for C9: self-approval by account 1 fails with NotAllowed;
approving operator 2 succeeds and is idempotent, from the empty
ledger. -/
theorem C9_operator_approval_witness :
    approve_for_all 1 1 true emptyData = .error (.err .NotAllowed)
    ∧ (approve_for_all 1 2 true emptyData).isOk = true
    ∧ Except.bind (approve_for_all 1 2 true emptyData)
        (approve_for_all 1 2 true)
      = approve_for_all 1 2 true emptyData :=
  ⟨(C9_operator_approval 1 1 true emptyData).1 rfl,
   ((C9_operator_approval 1 2 true emptyData).2 (by decide)).1,
   ((C9_operator_approval 1 2 true emptyData).2 (by decide)).2⟩

end PSP721

namespace PSP1155

theorem burnModel_ne_approve (frm : AccountId) (id : Id) (amount : Balance)
    (s : Data) : burnModel frm id amount s ≠ .error .ApproveRequired := by
  intro h
  simp only [burnModel] at h
  split at h <;> simp at h

theorem burnBatchModel_ne_approve (frm : AccountId)
    (items : List (Id × Balance)) :
    ∀ s : Data, burnBatchModel frm items s ≠ .error .ApproveRequired := by
  induction items with
  | nil =>
    intro s h
    simp [burnBatchModel] at h
  | cons p rest ih =>
    intro s h
    obtain ⟨pid, pam⟩ := p
    simp only [burnBatchModel] at h
    split at h
    next e hb =>
      injection h with h2
      rw [h2] at hb
      exact burnModel_ne_approve frm pid pam s hb
    next s1 hb =>
      exact ih s1 h

theorem burnModel_setOps (frm : AccountId) (id : Id) (amount : Balance)
    (s : Data) (a : List ((AccountId × AccountId) × Bool)) :
    burnModel frm id amount (setOps s a)
      = Except.map (fun d => setOps d a) (burnModel frm id amount s) := by
  by_cases hlt : (mfind s.balances (frm, id)).getD 0 < amount <;>
    simp [burnModel, setOps, balance_of, hlt, Except.map]

theorem burnBatchModel_setOps (frm : AccountId) (items : List (Id × Balance)) :
    ∀ (s : Data) (a : List ((AccountId × AccountId) × Bool)),
      burnBatchModel frm items (setOps s a)
        = Except.map (fun d => setOps d a) (burnBatchModel frm items s) := by
  induction items with
  | nil =>
    intro s a
    rfl
  | cons p rest ih =>
    intro s a
    obtain ⟨pid, pam⟩ := p
    simp only [burnBatchModel]
    rw [burnModel_setOps]
    cases hb : burnModel frm pid pam s with
    | error e => simp [Except.map]
    | ok s1 =>
      simp only [Except.map]
      exact ih s1 a

/-- Claim C10: in the multi-category burnable extension, `burn_from`
and `burn_batch_from` fail with ApproveRequired — before any balance
mutation, since the abort reverts the call with no state change — for
every caller that is not an approved operator of `from`; while `burn`
and `burn_batch` on the caller's own balances never fail with
ApproveRequired and their behavior is independent of the
operator-approval map (no approval check at all). -/
theorem C10_burnable_approval (caller frm : AccountId) (id : Id)
    (amount : Balance) (items : List (Id × Balance)) (s : Data)
    (h : is_approved_for_all s frm caller = false) :
    burn_from caller frm id amount s = .error .ApproveRequired
    ∧ burn_batch_from caller frm items s = .error .ApproveRequired
    ∧ burn caller id amount s ≠ .error .ApproveRequired
    ∧ burn_batch caller items s ≠ .error .ApproveRequired
    ∧ (∀ a, burn caller id amount (setOps s a)
        = Except.map (fun d => setOps d a) (burn caller id amount s))
    ∧ (∀ a, burn_batch caller items (setOps s a)
        = Except.map (fun d => setOps d a) (burn_batch caller items s)) := by
  refine ⟨?_, ?_, burnModel_ne_approve caller id amount s,
    burnBatchModel_ne_approve caller items s,
    fun a => burnModel_setOps caller id amount s a,
    fun a => burnBatchModel_setOps caller items s a⟩
  · simp [burn_from, h]
  · simp [burn_batch_from, h]

/-- Witness for C10: account 1 is not an approved operator of 2 in the
empty ledger — burning on behalf of 2 fails with ApproveRequired,
while self-burn does not and ignores the operator-approval map. -/
theorem C10_burnable_approval_witness :
    burn_from 1 2 7 5 emptyData = .error .ApproveRequired
    ∧ burn_batch_from 1 2 [(7, 5)] emptyData = .error .ApproveRequired
    ∧ burn 1 7 5 emptyData ≠ .error .ApproveRequired
    ∧ burn_batch 1 [(7, 5)] emptyData ≠ .error .ApproveRequired
    ∧ burn 1 7 5 (setOps emptyData [((2, 1), true)])
        = Except.map (fun d => setOps d [((2, 1), true)]) (burn 1 7 5 emptyData)
    ∧ burn_batch 1 [(7, 5)] (setOps emptyData [((2, 1), true)])
        = Except.map (fun d => setOps d [((2, 1), true)])
            (burn_batch 1 [(7, 5)] emptyData) :=
  have hc := C10_burnable_approval 1 2 7 5 [(7, 5)] emptyData rfl
  ⟨hc.1, hc.2.1, hc.2.2.1, hc.2.2.2.1, hc.2.2.2.2.1 [((2, 1), true)],
    hc.2.2.2.2.2 [((2, 1), true)]⟩

end PSP1155
